import Mathlib

/-!
Verification of the `thankunext` route-discovery pipeline
(`src/thankunext/thankunext.py`), shallowly embedded over `List Char`.

The program is a linear pipeline: validate the URL scheme, fetch the page,
locate the first occurrence of `/_next/static/<token>/_buildManifest.js` in
the page text, fetch that manifest, extract all double-quoted path literals
matching `"(/[a-zA-Z0-9_/\[\]\.-]+)"`, and print the deduplicated paths
joined by newlines.

Strings are modelled as `List Char`; the two Python regex searches are
embedded as deterministic matchers.  Both regexes are backtracking-free in
the relevant sense: the repeated character class of each excludes the
character that must follow the repetition (`/` is not a word/hyphen
character; `"` is not a path character), so the greedy run is forced to be
the maximal run and a match at a position is unique.  `re.search` tries
start positions left to right; `re.findall` does the same and resumes after
the end of each match (non-overlapping).

Python's `\w` on a `str` pattern is Unicode-aware, and the Unicode
character tables are not available here, so the regex engine's
word-character table is a parameter `w : Char → Bool` of the manifest-path
matcher, exactly like the network environment: the theorems about the
locator's pattern are proved for every table in which `/` is not a word
character, which is true of Python's `\w`.  Concrete ASCII runs
instantiate `w` with `asciiWordChar`, the restriction of Python's `\w` to
ASCII, which agrees with Python's table on every character of those
inputs.  The path-extractor class `[a-zA-Z0-9_/\[\]\.-]` is explicitly
ASCII in the source and is embedded exactly.

HTTP fetches are modelled as an environment function
`List Char → FetchResult`; `print` calls are collected in order in
`Trace.output`, and the URLs fetched, in order, in `Trace.fetched`.
-/

namespace ThankUNext

/-- The restriction of Python's `\w` word-character table to ASCII:
alphanumeric or underscore.  Python's table is Unicode-aware and also
contains characters outside ASCII; it agrees with this predicate on every
ASCII character, so this is a valid instantiation of the table parameter
for runs whose texts are ASCII. -/
def asciiWordChar (c : Char) : Bool :=
  c.isAlpha || c.isDigit || c == '_'

/-- Character class of `[\w-]` in the manifest-path regex, for a given
word-character table `w`: a word character per the engine's table, or the
literal hyphen. -/
def tokenClass (w : Char → Bool) (c : Char) : Bool :=
  w c || c == '-'

/-- Character class `[a-zA-Z0-9_/\[\]\.-]` of the path-literal regex. -/
def isPathChar (c : Char) : Bool :=
  c.isAlpha || c.isDigit || c == '_' || c == '/' || c == '[' || c == ']' ||
    c == '.' || c == '-'

/-- The literal part of the manifest-path regex before the hash token. -/
def manifestPre : List Char := "/_next/static/".data

/-- The literal part of the manifest-path regex after the hash token. -/
def manifestSuf : List Char := "/_buildManifest.js".data

/-- One attempt of the regex `/_next/static/[\w-]+/_buildManifest\.js` at
the start of `s`, for word-character table `w`: the literal
`/_next/static/`, then the maximal nonempty run of `[\w-]` characters, then
the literal `/_buildManifest.js`.  Whenever `/` is not in the table, no
shorter run can be followed by the suffix literal, so this is exactly the
Python regex engine's behaviour at one start position. -/
def matchManifestAtW (w : Char → Bool) (s : List Char) : Option (List Char) :=
  if manifestPre.isPrefixOf s then
    let rest := s.drop manifestPre.length
    let run := rest.takeWhile (tokenClass w)
    if 1 ≤ run.length ∧ manifestSuf.isPrefixOf (rest.drop run.length) then
      some (manifestPre ++ run ++ manifestSuf)
    else none
  else none

/-- `re.search(r'(?m)/_next/static/[\w-]+/_buildManifest\.js', body)` with
word-character table `w`: try each start position left to right and return
the first match (the `(?m)` flag only affects anchors, which the pattern
does not use).  Embeds `ThankUNext.get_build_manifest_path` parameterized
by the engine's table. -/
def get_build_manifest_pathW (w : Char → Bool) : List Char → Option (List Char)
  | [] => none
  | c :: cs =>
    match matchManifestAtW w (c :: cs) with
    | some t => some t
    | none => get_build_manifest_pathW w cs

/-- The locator instantiated at the ASCII table, used for executing the
pipeline on concrete all-ASCII inputs, where it coincides with Python's
Unicode-aware table. -/
def get_build_manifest_path : List Char → Option (List Char) :=
  get_build_manifest_pathW asciiWordChar

/-- One attempt of the regex `"(/[a-zA-Z0-9_/\[\]\.-]+)"` at the start of
`s`, returning the capture group (the part between the quotes).  Since `"`
is not a path character, the greedy run is forced to the maximal run, as in
the Python engine. -/
def matchPathAt (s : List Char) : Option (List Char) :=
  match s with
  | c0 :: c1 :: rest =>
    if c0 = '"' ∧ c1 = '/' then
      let run := rest.takeWhile isPathChar
      if 1 ≤ run.length ∧ (rest.drop run.length).head? = some '"' then
        some ('/' :: run)
      else none
    else none
  | _ => none

/-- `re.findall` scan: try each start position left to right; on a match,
record the capture and resume just after the match (the whole match has
length `capture + 2` for the two quotes), so matches never overlap.  The
fuel argument bounds the recursion; every step consumes at least one
character of the list, so fuel `s.length` never runs out. -/
def findPathsFuel : Nat → List Char → List (List Char)
  | 0, _ => []
  | _ + 1, [] => []
  | n + 1, c :: cs =>
    match matchPathAt (c :: cs) with
    | some cap => cap :: findPathsFuel n ((c :: cs).drop (cap.length + 2))
    | none => findPathsFuel n cs

/-- All captures of `re.findall(r'"(/[a-zA-Z0-9_/\[\]\.-]+)"', s)`,
in order of occurrence. -/
def findPaths (s : List Char) : List (List Char) :=
  findPathsFuel s.length s

/-- `set(re.findall(...))`: the deduplicated list of captures.  Python's
`set` iteration order is unspecified; this model keeps, for each value, its
last occurrence's position (any fixed order is a faithful model of an
unordered set).  Embeds `ThankUNext.parse_build_manifest_content`. -/
def parse_build_manifest_content (m : List Char) : List (List Char) :=
  (findPaths m).dedup

/-- The diagnostic printed by `parse_url` for a URL without scheme. -/
def protocolMsg : List Char :=
  "Please include the protocol (http:// or https://) in the URL.".data

/-- The diagnostic printed by `start` when no manifest path is found. -/
def notFoundMsg : List Char :=
  "_buildManifest.js wasn't found. Is this site really running Next.js?".data

/-- `url.startswith('http://') or url.startswith('https://')` (the negation
of the guard in `parse_url`). -/
def schemeOk (url : List Char) : Bool :=
  "http://".data.isPrefixOf url || "https://".data.isPrefixOf url

/-- Embeds `ThankUNext.parse_url`: returns the validated URL (unchanged) or
`none`, together with the list of lines it prints. -/
def parse_url (url : List Char) : Option (List Char) × List (List Char) :=
  if schemeOk url then (some url, []) else (none, [protocolMsg])

/-- Result of one HTTP GET in the environment: either the body text, or a
`requests.RequestException` carrying a message. -/
inductive FetchResult where
  | ok (body : List Char)
  | err (msg : List Char)
deriving DecidableEq

/-- Embeds `ThankUNext.get_page_content`: on success the body, on a request
exception `none` plus the printed error line. -/
def get_page_content (fetch : List Char → FetchResult) (url : List Char) :
    Option (List Char) × List (List Char) :=
  match fetch url with
  | .ok b => (some b, [])
  | .err e => (none, ["Error when accessing the URL: ".data ++ e])

/-- Embeds `ThankUNext.get_build_manifest_content`: on success the body, on
a request exception `none` plus the printed error line. -/
def get_build_manifest_content (fetch : List Char → FetchResult)
    (url : List Char) : Option (List Char) × List (List Char) :=
  match fetch url with
  | .ok b => (some b, [])
  | .err e => (none, ["Error accessing buildManifest content: ".data ++ e])

/-- Observable behaviour of one run of `ThankUNext.start`: the lines printed
(each `print` call contributes one element) and the URLs fetched, in
order. -/
structure Trace where
  output : List (List Char)
  fetched : List (List Char)
deriving DecidableEq

/-- Embeds `ThankUNext.start`, the pipeline driver, for the regex engine's
word-character table `w`, a command-line URL, and fetch environments for
the two HTTP GETs.  Python's truthiness tests `if not page_content` /
`if not build_manifest_content` are false for both `None` (a fetch error)
and the empty string, hence the explicit empty-list checks after the error
cases. -/
def startW (w : Char → Bool) (url : List Char)
    (pageFetch manifestFetch : List Char → FetchResult) : Trace :=
  match parse_url url with
  | (none, out) => ⟨out, []⟩
  | (some u, out1) =>
    match get_page_content pageFetch u with
    | (none, out2) => ⟨out1 ++ out2, [u]⟩
    | (some body, out2) =>
      if body = [] then ⟨out1 ++ out2, [u]⟩
      else
        match get_build_manifest_pathW w body with
        | none => ⟨out1 ++ out2 ++ [notFoundMsg], [u]⟩
        | some p =>
          match get_build_manifest_content manifestFetch (u ++ p) with
          | (none, out3) => ⟨out1 ++ out2 ++ out3, [u, u ++ p]⟩
          | (some mc, out3) =>
            if mc = [] then ⟨out1 ++ out2 ++ out3, [u, u ++ p]⟩
            else
              ⟨out1 ++ out2 ++ out3 ++
                  [List.intercalate ['\n'] (parse_build_manifest_content mc)],
                [u, u ++ p]⟩

/-- The pipeline driver instantiated at the ASCII word-character table,
used for executing concrete all-ASCII runs, where it coincides with the
program under Python's Unicode-aware table. -/
def start (url : List Char) (pageFetch manifestFetch : List Char → FetchResult) :
    Trace :=
  startW asciiWordChar url pageFetch manifestFetch

/-- Specification-side shape of a manifest-path match for word-character
table `w`: the literal directory part, a nonempty token of `[\w-]`
characters per the table, and the literal filename suffix. -/
def IsManifestMatchW (w : Char → Bool) (t : List Char) : Prop :=
  ∃ r, r ≠ [] ∧ (∀ c ∈ r, tokenClass w c = true) ∧
    t = manifestPre ++ r ++ manifestSuf

/-- `t` occurs as a substring of `m` starting at index `i`. -/
def OccursAt (m : List Char) (i : Nat) (t : List Char) : Prop :=
  t <+: m.drop i

/-- Specification-side shape of a route-path literal of `m`: a string of
length at least two, starting with `/`, made of path characters only, that
occurs in `m` wrapped in double quotes. -/
def QuotedPathLiteral (m s : List Char) : Prop :=
  s.head? = some '/' ∧ 2 ≤ s.length ∧ (∀ c ∈ s, isPathChar c = true) ∧
    ('"' :: s ++ ['"']) <:+: m

/-! ### Helper lemmas about runs of characters -/

/-- `takeWhile` of a list that is a good run followed by a bad character
is exactly the run. -/
theorem takeWhile_middle (p : Char → Bool) (xs : List Char) (y : Char)
    (ys : List Char) (hxs : ∀ x ∈ xs, p x = true) (hy : p y = false) :
    (xs ++ y :: ys).takeWhile p = xs := by
  induction xs with
  | nil => simp [List.takeWhile_cons, hy]
  | cons a as ih =>
    have ha : p a = true := hxs a (List.mem_cons_self a as)
    simp only [List.cons_append, List.takeWhile_cons, ha, if_true]
    rw [ih (fun x hx => hxs x (List.mem_cons_of_mem a hx))]

/-- Dropping the length of the `takeWhile` run is `dropWhile`. -/
theorem drop_takeWhile_length (p : Char → Bool) (l : List Char) :
    l.drop (l.takeWhile p).length = l.dropWhile p := by
  induction l with
  | nil => rfl
  | cons a as ih =>
    by_cases ha : p a
    · simp [List.takeWhile_cons, List.dropWhile_cons, ha, ih]
    · simp [List.takeWhile_cons, List.dropWhile_cons, ha]

/-- A list splits as its `takeWhile` run followed by the corresponding
drop. -/
theorem takeWhile_append_drop_self (p : Char → Bool) (l : List Char) :
    l = l.takeWhile p ++ l.drop (l.takeWhile p).length := by
  rw [drop_takeWhile_length]
  exact (List.takeWhile_append_dropWhile p l).symm

/-! ### The manifest-path matcher -/

/-- A character class of the form `[\w-]` never contains `/`, whatever the
engine's word-character table says about `/` — and Python's `\w` does not
contain `/`. -/
theorem tokenClass_slash {w : Char → Bool} (hw : w '/' = false) :
    tokenClass w '/' = false := by
  simp [tokenClass, hw]

/-- Soundness of one matcher attempt, for any word-character table: a
returned match has the manifest shape and is a prefix of the scanned
suffix. -/
theorem matchManifestAtW_sound {w : Char → Bool} {s t : List Char}
    (h : matchManifestAtW w s = some t) : IsManifestMatchW w t ∧ t <+: s := by
  simp only [matchManifestAtW] at h
  split_ifs at h with h1 h2
  obtain ⟨tl, htl⟩ := List.isPrefixOf_iff_prefix.mp h1
  have hdrop : s.drop manifestPre.length = tl := by
    rw [← htl, List.drop_left]
  rw [hdrop] at h h2
  obtain ⟨hlen, hsuf⟩ := h2
  obtain ⟨tl2, htl2⟩ :=
    List.isPrefixOf_iff_prefix.mp hsuf
  have ht : t = manifestPre ++ tl.takeWhile (tokenClass w) ++ manifestSuf :=
    (Option.some.inj h).symm
  subst ht
  refine ⟨⟨tl.takeWhile (tokenClass w), ?_, ?_, rfl⟩, ⟨tl2, ?_⟩⟩
  · exact List.ne_nil_of_length_pos hlen
  · exact fun c hc => List.mem_takeWhile_imp hc
  · rw [← htl]
    conv_rhs =>
      rw [takeWhile_append_drop_self (tokenClass w) tl, ← htl2]
    simp [List.append_assoc]

/-- Completeness of one matcher attempt, for any word-character table that
excludes `/` (as Python's does): any manifest-shaped prefix of `s` is
returned (and is therefore the unique match at this position). -/
theorem matchManifestAtW_complete {w : Char → Bool} {s t : List Char}
    (hw : w '/' = false) (hm : IsManifestMatchW w t) (hp : t <+: s) :
    matchManifestAtW w s = some t := by
  obtain ⟨r, hr0, hrc, ht⟩ := hm
  obtain ⟨tl, htl⟩ := hp
  subst ht
  have hs : s = manifestPre ++ (r ++ ('/' :: ("_buildManifest.js".data ++ tl))) := by
    rw [← htl]; simp [manifestSuf, List.append_assoc]
  subst hs
  have h1 : manifestPre.isPrefixOf
      (manifestPre ++ (r ++ ('/' :: ("_buildManifest.js".data ++ tl)))) = true :=
    List.isPrefixOf_iff_prefix.mpr ⟨_, rfl⟩
  have hdrop :
      (manifestPre ++ (r ++ ('/' :: ("_buildManifest.js".data ++ tl)))).drop
        manifestPre.length = r ++ ('/' :: ("_buildManifest.js".data ++ tl)) :=
    List.drop_left _ _
  have hrun :
      (r ++ ('/' :: ("_buildManifest.js".data ++ tl))).takeWhile (tokenClass w) = r :=
    takeWhile_middle (tokenClass w) r '/' _ hrc (tokenClass_slash hw)
  have hdrop2 :
      (r ++ ('/' :: ("_buildManifest.js".data ++ tl))).drop r.length =
        manifestSuf ++ tl := by
    rw [List.drop_left]; simp [manifestSuf]
  have hsuf : manifestSuf.isPrefixOf (manifestSuf ++ tl) = true :=
    List.isPrefixOf_iff_prefix.mpr ⟨_, rfl⟩
  have hlen : 1 ≤ r.length := List.length_pos.mpr hr0
  simp only [matchManifestAtW, h1, if_true, hdrop, hrun, hdrop2, hsuf, hlen,
    and_self, if_pos, true_and]

/-! ### The left-to-right scan for the manifest path -/

/-- A successful scan returns the match of the leftmost position where the
matcher succeeds. -/
theorem get_build_manifest_pathW_some {w : Char → Bool} {s t : List Char}
    (h : get_build_manifest_pathW w s = some t) :
    ∃ i, matchManifestAtW w (s.drop i) = some t ∧
      ∀ j, j < i → matchManifestAtW w (s.drop j) = none := by
  induction s with
  | nil => simp [get_build_manifest_pathW] at h
  | cons c cs ih =>
    rw [get_build_manifest_pathW] at h
    cases hm : matchManifestAtW w (c :: cs) with
    | some u =>
      rw [hm] at h
      refine ⟨0, ?_, fun j hj => absurd hj (Nat.not_lt_zero j)⟩
      rw [List.drop_zero, hm]
      exact h
    | none =>
      rw [hm] at h
      obtain ⟨i, hi, hmin⟩ := ih h
      refine ⟨i + 1, by simpa using hi, ?_⟩
      intro j hj
      cases j with
      | zero => simpa using hm
      | succ j' =>
        have := hmin j' (Nat.lt_of_succ_lt_succ hj)
        simpa using this

/-- A failed scan means the matcher fails at every position. -/
theorem get_build_manifest_pathW_none {w : Char → Bool} {s : List Char}
    (h : get_build_manifest_pathW w s = none) :
    ∀ i, matchManifestAtW w (s.drop i) = none := by
  induction s with
  | nil =>
    intro i
    rw [List.drop_nil]
    rfl
  | cons c cs ih =>
    rw [get_build_manifest_pathW] at h
    cases hm : matchManifestAtW w (c :: cs) with
    | some u => rw [hm] at h; cases h
    | none =>
      rw [hm] at h
      intro i
      cases i with
      | zero => simpa using hm
      | succ i' => simpa using ih h i'

/-! ### The path-literal matcher and the findall scan -/

/-- Soundness of one path-literal attempt: a capture is a quoted occurrence
at the start of the scanned suffix, starts with `/`, has length at least
two, and consists of path characters. -/
theorem matchPathAt_sound {s cap : List Char} (h : matchPathAt s = some cap) :
    ∃ tail, s = '"' :: cap ++ '"' :: tail ∧ cap.head? = some '/' ∧
      2 ≤ cap.length ∧ ∀ c ∈ cap, isPathChar c = true := by
  cases s with
  | nil => simp [matchPathAt] at h
  | cons c0 s1 =>
    cases s1 with
    | nil => simp [matchPathAt] at h
    | cons c1 rest =>
      simp only [matchPathAt] at h
      split_ifs at h with hq hc
      obtain ⟨hc0, hc1⟩ := hq
      subst hc0; subst hc1
      obtain ⟨hlen, hhd⟩ := hc
      have hcap : cap = '/' :: rest.takeWhile isPathChar :=
        (Option.some.inj h).symm
      subst hcap
      cases hd : rest.drop (rest.takeWhile isPathChar).length with
      | nil => rw [hd] at hhd; simp at hhd
      | cons d ds =>
        rw [hd] at hhd
        have hdq : d = '"' := by simpa using hhd
        subst hdq
        refine ⟨ds, ?_, rfl, by simpa using hlen, ?_⟩
        · conv_lhs =>
            rw [show rest = rest.takeWhile isPathChar ++
              rest.drop (rest.takeWhile isPathChar).length from
                takeWhile_append_drop_self isPathChar rest, hd]
          simp
        · intro c hcm
          rcases List.mem_cons.mp hcm with hce | hcm'
          · subst hce; decide
          · exact List.mem_takeWhile_imp hcm'

/-- Soundness of the fuelled findall scan: every capture starts with `/`,
has length at least two, consists of path characters only, and occurs in
the scanned text wrapped in double quotes. -/
theorem findPathsFuel_sound :
    ∀ (n : Nat) (s cap : List Char), cap ∈ findPathsFuel n s →
      cap.head? = some '/' ∧ 2 ≤ cap.length ∧
        (∀ c ∈ cap, isPathChar c = true) ∧ ('"' :: cap ++ ['"']) <:+: s := by
  intro n
  induction n with
  | zero => intro s cap h; simp [findPathsFuel] at h
  | succ n ih =>
    intro s cap h
    cases s with
    | nil => simp [findPathsFuel] at h
    | cons c cs =>
      rw [findPathsFuel] at h
      cases hm : matchPathAt (c :: cs) with
      | some cap0 =>
        rw [hm] at h
        rcases List.mem_cons.mp h with hceq | hmem
        · subst hceq
          obtain ⟨tail, hseq, hhd, hlen, hchars⟩ := matchPathAt_sound hm
          refine ⟨hhd, hlen, hchars, [], tail, ?_⟩
          rw [hseq]; simp
        · obtain ⟨hhd, hlen, hchars, hinf⟩ := ih _ _ hmem
          exact ⟨hhd, hlen, hchars,
            hinf.trans (List.drop_suffix _ _).isInfix⟩
      | none =>
        rw [hm] at h
        obtain ⟨hhd, hlen, hchars, hinf⟩ := ih cs cap h
        obtain ⟨pre, post, hpp⟩ := hinf
        exact ⟨hhd, hlen, hchars, c :: pre, post, by rw [← hpp]; simp⟩

/-- Soundness of the extractor: every returned path is a quoted path
literal of the manifest text. -/
theorem parse_build_manifest_content_sound {m s : List Char}
    (h : s ∈ parse_build_manifest_content m) : QuotedPathLiteral m s := by
  have hmem : s ∈ findPaths m := List.mem_dedup.mp h
  obtain ⟨hhd, hlen, hchars, hinf⟩ := findPathsFuel_sound m.length m s hmem
  exact ⟨hhd, hlen, hchars, hinf⟩

/-! ### Reduction lemmas for the pipeline driver -/

/-- The scheme check succeeds exactly on URLs with an `http://` or
`https://` prefix. -/
theorem schemeOk_iff {url : List Char} :
    schemeOk url = true ↔
      ("http://".data <+: url ∨ "https://".data <+: url) := by
  simp [schemeOk, List.isPrefixOf_iff_prefix]

/-- A run with an invalid scheme prints the protocol diagnostic and fetches
nothing, whatever the word-character table is. -/
theorem startW_no_scheme (w : Char → Bool) {url : List Char}
    (pf mf : List Char → FetchResult) (h : schemeOk url = false) :
    startW w url pf mf = ⟨[protocolMsg], []⟩ := by
  have h1 : parse_url url = (none, [protocolMsg]) := by simp [parse_url, h]
  simp only [startW, h1]

/-- A run whose page fetch succeeds with an empty body stops after the
first fetch, printing nothing. -/
theorem startW_page_empty (w : Char → Bool) {url : List Char}
    (pf mf : List Char → FetchResult)
    (hu : schemeOk url = true) (hp : pf url = .ok []) :
    startW w url pf mf = ⟨[], [url]⟩ := by
  have h1 : parse_url url = (some url, []) := by simp [parse_url, hu]
  have h2 : get_page_content pf url = (some [], []) := by
    simp [get_page_content, hp]
  simp only [startW, h1, h2, if_pos rfl, if_true, List.nil_append]

/-- A run whose page has no manifest path under the engine's table prints
the not-found diagnostic and stops after the first fetch. -/
theorem startW_not_found {w : Char → Bool} {url body : List Char}
    (pf mf : List Char → FetchResult)
    (hu : schemeOk url = true) (hp : pf url = .ok body) (hb : body ≠ [])
    (hn : get_build_manifest_pathW w body = none) :
    startW w url pf mf = ⟨[notFoundMsg], [url]⟩ := by
  have h1 : parse_url url = (some url, []) := by simp [parse_url, hu]
  have h2 : get_page_content pf url = (some body, []) := by
    simp [get_page_content, hp]
  simp only [startW, h1, h2, if_neg hb, hn, List.nil_append]

/-- Whenever a manifest path is located, the run performs exactly two
fetches: the page URL, then the page URL concatenated with the located
path. -/
theorem startW_fetched {w : Char → Bool} {url body p : List Char}
    (pf mf : List Char → FetchResult)
    (hu : schemeOk url = true) (hp : pf url = .ok body) (hb : body ≠ [])
    (hn : get_build_manifest_pathW w body = some p) :
    (startW w url pf mf).fetched = [url, url ++ p] := by
  have h1 : parse_url url = (some url, []) := by simp [parse_url, hu]
  have h2 : get_page_content pf url = (some body, []) := by
    simp [get_page_content, hp]
  cases hg : mf (url ++ p) with
  | ok mc =>
    have h3 : get_build_manifest_content mf (url ++ p) = (some mc, []) := by
      simp [get_build_manifest_content, hg]
    by_cases hmc : mc = []
    · simp only [startW, h1, h2, if_neg hb, hn, h3, if_pos hmc]
    · simp only [startW, h1, h2, if_neg hb, hn, h3, if_neg hmc]
  | err e =>
    have h3 : get_build_manifest_content mf (url ++ p) =
        (none, ["Error accessing buildManifest content: ".data ++ e]) := by
      simp [get_build_manifest_content, hg]
    simp only [startW, h1, h2, if_neg hb, hn, h3]

/-- A run whose manifest fetch succeeds with an empty body stops after the
second fetch, printing nothing. -/
theorem startW_manifest_empty {w : Char → Bool} {url body p : List Char}
    (pf mf : List Char → FetchResult)
    (hu : schemeOk url = true) (hp : pf url = .ok body) (hb : body ≠ [])
    (hn : get_build_manifest_pathW w body = some p)
    (hm : mf (url ++ p) = .ok []) :
    startW w url pf mf = ⟨[], [url, url ++ p]⟩ := by
  have h1 : parse_url url = (some url, []) := by simp [parse_url, hu]
  have h2 : get_page_content pf url = (some body, []) := by
    simp [get_page_content, hp]
  have h3 : get_build_manifest_content mf (url ++ p) = (some [], []) := by
    simp [get_build_manifest_content, hm]
  simp only [startW, h1, h2, if_neg hb, hn, h3, if_pos rfl, if_true,
    List.nil_append]

/-- A fully successful run prints one line: the extracted paths joined by
newlines. -/
theorem startW_success {w : Char → Bool} {url body p mc : List Char}
    (pf mf : List Char → FetchResult)
    (hu : schemeOk url = true) (hp : pf url = .ok body) (hb : body ≠ [])
    (hn : get_build_manifest_pathW w body = some p)
    (hm : mf (url ++ p) = .ok mc) (hmc : mc ≠ []) :
    startW w url pf mf =
      ⟨[List.intercalate ['\n'] (parse_build_manifest_content mc)],
        [url, url ++ p]⟩ := by
  have h1 : parse_url url = (some url, []) := by simp [parse_url, hu]
  have h2 : get_page_content pf url = (some body, []) := by
    simp [get_page_content, hp]
  have h3 : get_build_manifest_content mf (url ++ p) = (some mc, []) := by
    simp [get_build_manifest_content, hm]
  simp only [startW, h1, h2, if_neg hb, hn, h3, if_neg hmc, List.nil_append]

/-! ### The same reductions at the ASCII instance used for concrete runs -/

/-- `start_no_scheme` at the ASCII instance. -/
theorem start_no_scheme {url : List Char} (pf mf : List Char → FetchResult)
    (h : schemeOk url = false) : start url pf mf = ⟨[protocolMsg], []⟩ := by
  unfold start
  exact startW_no_scheme asciiWordChar pf mf h

/-- `start_page_empty` at the ASCII instance. -/
theorem start_page_empty {url : List Char} (pf mf : List Char → FetchResult)
    (hu : schemeOk url = true) (hp : pf url = .ok []) :
    start url pf mf = ⟨[], [url]⟩ := by
  unfold start
  exact startW_page_empty asciiWordChar pf mf hu hp

/-- `start_fetched` at the ASCII instance. -/
theorem start_fetched {url body p : List Char} (pf mf : List Char → FetchResult)
    (hu : schemeOk url = true) (hp : pf url = .ok body) (hb : body ≠ [])
    (hn : get_build_manifest_path body = some p) :
    (start url pf mf).fetched = [url, url ++ p] := by
  have hn' : get_build_manifest_pathW asciiWordChar body = some p := hn
  unfold start
  exact startW_fetched pf mf hu hp hb hn'

/-- `start_manifest_empty` at the ASCII instance. -/
theorem start_manifest_empty {url body p : List Char}
    (pf mf : List Char → FetchResult)
    (hu : schemeOk url = true) (hp : pf url = .ok body) (hb : body ≠ [])
    (hn : get_build_manifest_path body = some p)
    (hm : mf (url ++ p) = .ok []) :
    start url pf mf = ⟨[], [url, url ++ p]⟩ := by
  have hn' : get_build_manifest_pathW asciiWordChar body = some p := hn
  unfold start
  exact startW_manifest_empty pf mf hu hp hb hn' hm

/-- `start_success` at the ASCII instance. -/
theorem start_success {url body p mc : List Char}
    (pf mf : List Char → FetchResult)
    (hu : schemeOk url = true) (hp : pf url = .ok body) (hb : body ≠ [])
    (hn : get_build_manifest_path body = some p)
    (hm : mf (url ++ p) = .ok mc) (hmc : mc ≠ []) :
    start url pf mf =
      ⟨[List.intercalate ['\n'] (parse_build_manifest_content mc)],
        [url, url ++ p]⟩ := by
  have hn' : get_build_manifest_pathW asciiWordChar body = some p := hn
  unfold start
  exact startW_success pf mf hu hp hb hn' hm hmc

/-! ### Auxiliary facts about the character classes and match shapes -/

/-- A manifest-shaped match is at least 33 characters long (14 for the
directory literal, at least 1 for the token, 18 for the filename),
whatever the word-character table. -/
theorem IsManifestMatchW.length_ge {w : Char → Bool} {t : List Char}
    (h : IsManifestMatchW w t) : 33 ≤ t.length := by
  obtain ⟨r, hr0, _, ht⟩ := h
  subst ht
  have hr : 1 ≤ r.length := List.length_pos.mpr hr0
  have h14 : manifestPre.length = 14 := by decide
  have h18 : manifestSuf.length = 18 := by decide
  simp only [List.length_append, h14, h18]
  omega

/-- Path characters are never whitespace. -/
theorem isPathChar_not_whitespace {c : Char} (h : isPathChar c = true) :
    c.isWhitespace = false := by
  cases hw : c.isWhitespace
  · rfl
  · exfalso
    have hc : ((c = ' ' ∨ c = '\t') ∨ c = '\r') ∨ c = '\n' := by
      simpa [Char.isWhitespace] using hw
    rcases hc with ((h1 | h1) | h1) | h1 <;> rw [h1] at h <;>
      exact absurd h (by decide)

/-! ### Concrete end-to-end environment of the spec's end-to-end test -/

/-- The end-to-end target address. -/
def exUrl : List Char := "https://example.com".data

/-- The end-to-end page body, containing one manifest-path reference. -/
def exPage : List Char :=
  "<html><script src=\"/_next/static/xyz/_buildManifest.js\"></script></html>".data

/-- The end-to-end manifest body. -/
def exManifest : List Char := "[\"/a\",\"/b/[id]\"]".data

/-- Page-fetch environment serving `exPage` at `exUrl` only. -/
def exPageFetch : List Char → FetchResult := fun u =>
  if u = exUrl then .ok exPage else .err "connection refused".data

/-- Manifest-fetch environment serving `exManifest` at the concatenated
manifest URL only. -/
def exManifestFetch : List Char → FetchResult := fun u =>
  if u = exUrl ++ "/_next/static/xyz/_buildManifest.js".data then .ok exManifest
  else .err "connection refused".data

/-! ### The claims -/

/-- C1: end-to-end, for address `https://example.com`, a page body containing
`/_next/static/xyz/_buildManifest.js` and a manifest body `["/a","/b/[id]"]`,
the pipeline prints exactly the two lines `/a` and `/b/[id]` joined by a
newline, in some order, and nothing else. -/
theorem thankunext_C1 :
    (start exUrl exPageFetch exManifestFetch).output = ["/a\n/b/[id]".data] ∨
      (start exUrl exPageFetch exManifestFetch).output = ["/b/[id]\n/a".data] :=
  Or.inl (by decide)

/-- C2: for every address starting with neither `http://` nor `https://`,
the pipeline prints exactly the protocol diagnostic and halts with no
network fetch at all. -/
theorem thankunext_C2 (url : List Char) (pf mf : List Char → FetchResult)
    (h1 : ¬ ("http://".data <+: url)) (h2 : ¬ ("https://".data <+: url)) :
    start url pf mf = ⟨[protocolMsg], []⟩ := by
  have hs : schemeOk url = false := by
    rw [Bool.eq_false_iff]
    intro hc
    rcases schemeOk_iff.mp hc with h | h
    · exact h1 h
    · exact h2 h
  exact start_no_scheme pf mf hs

/-- C2 witness at the concrete address `example.com`. -/
theorem thankunext_C2_witness :
    start "example.com".data (fun _ => FetchResult.err [])
        (fun _ => FetchResult.err []) = ⟨[protocolMsg], []⟩ :=
  thankunext_C2 _ _ _ (by decide) (by decide)

/-- C3 counterexample: in the manifest text `"/a"/b"`, the string `/b`
occurs inside double quotes, starts with `/` and consists of allowed
characters only, yet the extractor does not return it: the scan is
non-overlapping, so the closing quote of `"/a"` cannot also open the
literal `"/b"`. -/
theorem thankunext_C3_counterexample :
    QuotedPathLiteral "\"/a\"/b\"".data "/b".data ∧
      "/b".data ∉ parse_build_manifest_content "\"/a\"/b\"".data :=
  ⟨⟨rfl, by decide, by decide, by decide⟩, by decide⟩

/-- C3 amended: every element returned by the extractor is a distinct
quoted path literal (quotes stripped, leading `/`, allowed characters
only), but — because the scan consumes its matches and never overlaps
them — not every such substring of the text need be returned; on the input
`{"a":["/foo","/bar","/foo"]}` it returns exactly the set
`{/foo, /bar}` with the duplicate collapsed. -/
theorem thankunext_C3_amended :
    (∀ m s, s ∈ parse_build_manifest_content m → QuotedPathLiteral m s) ∧
      (∀ m, (parse_build_manifest_content m).Nodup) ∧
      (parse_build_manifest_content
          "\x7b\"a\":[\"/foo\",\"/bar\",\"/foo\"]\x7d".data).Perm
        ["/foo".data, "/bar".data] :=
  ⟨fun _ _ h => parse_build_manifest_content_sound h,
    fun _ => List.nodup_dedup _, by decide⟩

/-- C3 witness: the extractor's output on the example manifest contains
`/foo`, and it is a quoted path literal of that text. -/
theorem thankunext_C3_witness :
    "/foo".data ∈ parse_build_manifest_content
        "\x7b\"a\":[\"/foo\",\"/bar\",\"/foo\"]\x7d".data ∧
      QuotedPathLiteral "\x7b\"a\":[\"/foo\",\"/bar\",\"/foo\"]\x7d".data
        "/foo".data :=
  ⟨by decide, thankunext_C3_amended.1 _ _ (by decide)⟩

/-- C4: for every word-character table `w` of the regex engine in which `/`
is not a word character — true of Python's Unicode-aware `\w` — whenever
the locator built on `w` returns a path, that path has the manifest shape
over `w` and is the match at the leftmost matching position; no
manifest-shaped substring occurs strictly earlier, and the match at that
position is unique.  The table is a parameter because Python's Unicode
tables are not available here; the sole fact about `\w` the proof uses is
the hypothesis `hw`. -/
theorem thankunext_C4 (w : Char → Bool) (hw : w '/' = false)
    (body t : List Char)
    (h : get_build_manifest_pathW w body = some t) :
    IsManifestMatchW w t ∧
      ∃ i, OccursAt body i t ∧
        ∀ j u, OccursAt body j u → IsManifestMatchW w u →
          i ≤ j ∧ (j = i → u = t) := by
  obtain ⟨i, hi, hmin⟩ := get_build_manifest_pathW_some h
  obtain ⟨hm, hp⟩ := matchManifestAtW_sound hi
  refine ⟨hm, i, hp, ?_⟩
  intro j u hocc hu
  have hj : matchManifestAtW w (body.drop j) = some u :=
    matchManifestAtW_complete hw hu hocc
  constructor
  · by_contra hlt
    push_neg at hlt
    rw [hmin j hlt] at hj
    cases hj
  · intro hji
    subst hji
    rw [hi] at hj
    exact (Option.some.inj hj).symm

/-- C4 witness, instantiated at the ASCII table (which agrees with Python's
`\w` on this all-ASCII input and excludes `/`): on a page containing
`/_next/static/abc123/_buildManifest.js` the locator returns exactly that
substring, and it has the manifest shape. -/
theorem thankunext_C4_witness :
    asciiWordChar '/' = false ∧
      get_build_manifest_pathW asciiWordChar
          "xx /_next/static/abc123/_buildManifest.js yy".data =
        some "/_next/static/abc123/_buildManifest.js".data ∧
      IsManifestMatchW asciiWordChar
        "/_next/static/abc123/_buildManifest.js".data :=
  ⟨by decide, by decide,
    (thankunext_C4 asciiWordChar (by decide)
      "xx /_next/static/abc123/_buildManifest.js yy".data
      "/_next/static/abc123/_buildManifest.js".data (by decide)).1⟩

/-- C5: for every word-character table `w` of the regex engine and every
page text with no manifest-shaped substring over `w`, the locator built on
`w` returns `none`, and the pipeline driven by that locator prints exactly
the not-found diagnostic and halts after the single page fetch.  With `w`
instantiated to Python's `\w` table this is exactly the program; a text
with a match over Python's table (for example one with a non-ASCII token)
does not satisfy the hypothesis, so the theorem does not cover it. -/
theorem thankunext_C5 (w : Char → Bool)
    (url body : List Char) (pf mf : List Char → FetchResult)
    (hu : "http://".data <+: url ∨ "https://".data <+: url)
    (hp : pf url = FetchResult.ok body) (hb : body ≠ [])
    (hn : ∀ i t, OccursAt body i t → ¬ IsManifestMatchW w t) :
    get_build_manifest_pathW w body = none ∧
      startW w url pf mf = ⟨[notFoundMsg], [url]⟩ := by
  have hnone : get_build_manifest_pathW w body = none := by
    cases hg : get_build_manifest_pathW w body with
    | none => rfl
    | some t =>
      obtain ⟨i, hi, _⟩ := get_build_manifest_pathW_some hg
      obtain ⟨hm, hpre⟩ := matchManifestAtW_sound hi
      exact absurd hm (hn i t hpre)
  exact ⟨hnone, startW_not_found pf mf (schemeOk_iff.mpr hu) hp hb hnone⟩

/-- C5 witness at the ASCII table: the page body `hello` has no
manifest-shaped substring over any table (every manifest match is at least
33 characters long), so the run prints the not-found diagnostic and stops
after one fetch. -/
theorem thankunext_C5_witness :
    get_build_manifest_pathW asciiWordChar "hello".data = none ∧
      startW asciiWordChar "https://example.com".data
          (fun _ => FetchResult.ok "hello".data)
          (fun _ => FetchResult.err []) =
        ⟨[notFoundMsg], ["https://example.com".data]⟩ :=
  thankunext_C5 asciiWordChar _ _ _ _ (Or.inr (by decide)) rfl (by decide)
    (fun i t hocc hm => by
      have h33 : 33 ≤ t.length := hm.length_ge
      have hle : t.length ≤ ("hello".data.drop i).length := hocc.length_le
      have h5 : ("hello".data.drop i).length ≤ 5 := by
        rw [List.length_drop]
        have : "hello".data.length = 5 := by decide
        omega
      omega)

/-- C6 counterexample: with a manifest body `hello` the extractor returns
the empty set, but the route-printing step still executes
`print("".join(...))`, so the run's output is one empty line, not
nothing. -/
theorem thankunext_C6_counterexample :
    parse_build_manifest_content "hello".data = [] ∧
      (start exUrl exPageFetch (fun _ => FetchResult.ok "hello".data)).output =
        [[]] ∧
      (start exUrl exPageFetch (fun _ => FetchResult.ok "hello".data)).output ≠
        [] :=
  ⟨by decide, by decide, by decide⟩

/-- C6 amended: for every manifest text on which the extractor returns the
empty set, a successful run prints a single empty line for the route list
(the newline-join of the empty set is the empty string, which is still
printed) rather than producing no output. -/
theorem thankunext_C6_amended (url body p mc : List Char)
    (pf mf : List Char → FetchResult)
    (hu : "http://".data <+: url ∨ "https://".data <+: url)
    (hp : pf url = FetchResult.ok body) (hb : body ≠ [])
    (hn : get_build_manifest_path body = some p)
    (hm : mf (url ++ p) = FetchResult.ok mc) (hmc : mc ≠ [])
    (hempty : parse_build_manifest_content mc = []) :
    start url pf mf = ⟨[[]], [url, url ++ p]⟩ := by
  have hs := start_success pf mf (schemeOk_iff.mpr hu) hp hb hn hm hmc
  rw [hs, hempty]
  rfl

/-- C6 witness: the amended behaviour at the concrete environment of the
counterexample. -/
theorem thankunext_C6_witness :
    start exUrl exPageFetch (fun _ => FetchResult.ok "hello".data) =
      ⟨[[]], [exUrl, exUrl ++ "/_next/static/xyz/_buildManifest.js".data]⟩ :=
  thankunext_C6_amended exUrl exPage
    "/_next/static/xyz/_buildManifest.js".data "hello".data _ _
    (Or.inr (by decide)) (by decide) (by decide) (by decide) (by decide)
    (by decide) (by decide)

/-- C7: whenever the scheme is valid, the page fetch succeeds with a
nonempty body and a manifest path is located, the second fetch's URL is
exactly the target address concatenated with the located path (and those
are the only two fetches). -/
theorem thankunext_C7 (url body p : List Char) (pf mf : List Char → FetchResult)
    (hu : "http://".data <+: url ∨ "https://".data <+: url)
    (hp : pf url = FetchResult.ok body) (hb : body ≠ [])
    (hn : get_build_manifest_path body = some p) :
    (start url pf mf).fetched = [url, url ++ p] :=
  start_fetched pf mf (schemeOk_iff.mpr hu) hp hb hn

/-- C7 witness at the concrete end-to-end environment. -/
theorem thankunext_C7_witness :
    (start exUrl exPageFetch exManifestFetch).fetched =
      [exUrl, exUrl ++ "/_next/static/xyz/_buildManifest.js".data] :=
  thankunext_C7 exUrl exPage "/_next/static/xyz/_buildManifest.js".data _ _
    (Or.inr (by decide)) (by decide) (by decide) (by decide)

/-- C8: for every address starting with `http://` or `https://`, the
validator returns the address unchanged and prints nothing. -/
theorem thankunext_C8 (url : List Char)
    (h : "http://".data <+: url ∨ "https://".data <+: url) :
    parse_url url = (some url, []) := by
  simp [parse_url, schemeOk_iff.mpr h]

/-- C8 witness at the concrete address `http://x`. -/
theorem thankunext_C8_witness :
    parse_url "http://x".data = (some "http://x".data, []) :=
  thankunext_C8 _ (Or.inl (by decide))

/-- C9: a fetch that succeeds with an empty body halts the pipeline at that
step exactly as a fetch failure does at the driver's truthiness checks: no
further fetch, and no route list printed (first conjunct: empty page body;
second conjunct: empty manifest body). -/
theorem thankunext_C9 :
    (∀ (url : List Char) (pf mf : List Char → FetchResult),
        ("http://".data <+: url ∨ "https://".data <+: url) →
        pf url = FetchResult.ok [] →
        start url pf mf = ⟨[], [url]⟩) ∧
      (∀ (url body p : List Char) (pf mf : List Char → FetchResult),
        ("http://".data <+: url ∨ "https://".data <+: url) →
        pf url = FetchResult.ok body → body ≠ [] →
        get_build_manifest_path body = some p →
        mf (url ++ p) = FetchResult.ok [] →
        start url pf mf = ⟨[], [url, url ++ p]⟩) :=
  ⟨fun _ pf mf hu hp => start_page_empty pf mf (schemeOk_iff.mpr hu) hp,
    fun _ _ _ pf mf hu hp hb hn hm =>
      start_manifest_empty pf mf (schemeOk_iff.mpr hu) hp hb hn hm⟩

/-- C9 witness: concrete runs with an empty page body and with an empty
manifest body. -/
theorem thankunext_C9_witness :
    start exUrl (fun _ => FetchResult.ok []) (fun _ => FetchResult.err []) =
        ⟨[], [exUrl]⟩ ∧
      start exUrl exPageFetch (fun _ => FetchResult.ok []) =
        ⟨[], [exUrl, exUrl ++ "/_next/static/xyz/_buildManifest.js".data]⟩ :=
  ⟨thankunext_C9.1 _ _ _ (Or.inr (by decide)) rfl,
    thankunext_C9.2 exUrl exPage "/_next/static/xyz/_buildManifest.js".data
      _ _ (Or.inr (by decide)) (by decide) (by decide) (by decide) rfl⟩

/-- C10: every element of the extractor's result is nonempty, begins with
`/`, and consists only of allowed path characters; in particular no element
contains a double quote or a whitespace character. -/
theorem thankunext_C10 (m s : List Char)
    (h : s ∈ parse_build_manifest_content m) :
    s ≠ [] ∧ s.head? = some '/' ∧
      ∀ c ∈ s, isPathChar c = true ∧ c ≠ '"' ∧ c.isWhitespace = false := by
  obtain ⟨hhd, hlen, hchars, _⟩ := parse_build_manifest_content_sound h
  refine ⟨?_, hhd, ?_⟩
  · intro he
    rw [he] at hhd
    cases hhd
  · intro c hc
    have hpc := hchars c hc
    refine ⟨hpc, ?_, isPathChar_not_whitespace hpc⟩
    intro he
    rw [he] at hpc
    exact absurd hpc (by decide)

/-- C10 witness at the extractor output `/a` of the end-to-end manifest. -/
theorem thankunext_C10_witness :
    "/a".data ≠ [] ∧ "/a".data.head? = some '/' ∧
      ∀ c ∈ "/a".data, isPathChar c = true ∧ c ≠ '"' ∧ c.isWhitespace = false :=
  thankunext_C10 "[\"/a\",\"/b/[id]\"]".data _ (by decide)

end ThankUNext
